import Mathlib

/-!
Verification development for the Siemens DICOM conversion core of spec2nii
(`spec2nii/dicomfunctions.py`).  The Python functions are shallowly embedded:

* float32 sample values and all scanner numbers are modelled as rationals
  (the operations involved — negation, interleaving, scaling, exact equality
  comparison — are exact on the represented values);
* NumPy arrays are modelled as a C-order flat element list together with a
  shape list; slicing `[0::2]` / `[1::2]`, broadcasting of 1-D subtraction,
  `reshape`, `moveaxis` and `stack(axis=-1)` are given their NumPy semantics
  on this representation;
* fallible code (exceptions such as IndexError / ValueError on malformed
  inputs) is modelled with `Option`, `none` meaning the conversion of the
  batch aborts with no output;
* code of the repository that lives outside `dicomfunctions.py`
  (`nifti_dicom2mat`, `NIFTIOrient`, the `nifti_mrs` container and header
  extension) is modelled from the specification, as flagged in the
  corresponding doc comments.
-/

set_option linter.unusedVariables false
set_option maxRecDepth 2000

/-- A complex sample, real and imaginary part as exact rationals. -/
structure Cplx where
  re : ℚ
  im : ℚ
deriving DecidableEq, Inhabited

/-- An N-dimensional array: shape plus C-order flat data. -/
structure NDArray where
  shape : List ℕ
  data : List Cplx
deriving DecidableEq, Inhabited

/-- C-order flat index of a multi-index `idx` in an array of shape `shape`. -/
def flatIdx : List ℕ → List ℕ → ℕ
  | _ :: ds, i :: is => i * ds.prod + flatIdx ds is
  | _, _ => 0

/-- Element of an array at a multi-index (default `⟨0,0⟩` out of range). -/
def NDArray.entry (a : NDArray) (idx : List ℕ) : Cplx :=
  a.data.getD (flatIdx a.shape idx) ⟨0, 0⟩

/-- Concatenation of the blocks `f 0 ++ f 1 ++ ... ++ f (n-1)`. -/
def buildList (f : ℕ → List Cplx) : ℕ → List Cplx
  | 0 => []
  | n + 1 => buildList f n ++ f n

/-- Elements of a list at even positions: NumPy slice `l[0::2]`. -/
def evens : List ℚ → List ℚ
  | [] => []
  | [a] => [a]
  | a :: _ :: rest => a :: evens rest

/-- Elements of a list at odd positions: NumPy slice `l[1::2]`. -/
def odds : List ℚ → List ℚ
  | [] => []
  | [_] => []
  | _ :: b :: rest => b :: odds rest

/-- NumPy semantics of `r - 1j * im` on 1-D float arrays: elementwise
`⟨r_k, -im_k⟩` when the lengths match, broadcasting when one operand has
length one, and an error (`none`) otherwise. -/
def npBroadcastSub (r im : List ℚ) : Option (List Cplx) :=
  if r.length = im.length then
    some (List.zipWith (fun a b => ⟨a, -b⟩) r im)
  else if im.length = 1 then
    some (r.map fun a => ⟨a, -(im.headD 0)⟩)
  else if r.length = 1 then
    some (im.map fun b => ⟨r.headD 0, -b⟩)
  else
    none

/-- `specData[0::2] - 1j * specData[1::2]` (dicomfunctions.py lines 111-112
and 135-136): decode the interleaved float buffer into complex samples. -/
def decodeInterleaved (buf : List ℚ) : Option (List Cplx) :=
  npBroadcastSub (evens buf) (odds buf)

/-- Single-voxel data extraction: the decoded samples as a 1-D array. -/
def svs_extract (buf : List ℚ) : Option NDArray :=
  match decodeInterleaved buf with
  | none => none
  | some d => some ⟨[d.length], d⟩

/-- `specDataCmplx.reshape((1, 1, 1) + specDataCmplx.shape)`
(dicomfunctions.py lines 45-46). -/
def svs_reshape (a : NDArray) : NDArray :=
  ⟨1 :: 1 :: 1 :: a.shape, a.data⟩

/-- `np.moveaxis(x, (0, 1, 2), (2, 1, 0))` on a 4-D array of shape
`[s, r, c, p]`: the result has shape `[c, r, s, p]` and element
`(i0, i1, i2, i3)` equal to the source element `(i2, i1, i0, i3)`,
materialised in C order. -/
def moveaxis210 (a : NDArray) : NDArray :=
  match a.shape with
  | [s, r, c, p] =>
    ⟨[c, r, s, p],
      buildList (fun i0 =>
        buildList (fun i1 =>
          buildList (fun i2 =>
            buildList (fun i3 => [a.entry [i2, i1, i0, i3]]) p) s) r) c⟩
  | _ => a

/-- Multi-voxel data extraction (dicomfunctions.py lines 135-144): decode,
reshape to storage order `(slices, rows, cols, points)` — a NumPy `reshape`
error when the element count does not match — then permute the spatial
axes with `moveaxis`. -/
def csi_extract (buf : List ℚ) (slices rows cols points : ℕ) : Option NDArray :=
  match decodeInterleaved buf with
  | none => none
  | some d =>
    if d.length = slices * rows * cols * points then
      some (moveaxis210 ⟨[slices, rows, cols, points], d⟩)
    else
      none

/-- A 3-vector of rationals. -/
structure V3 where
  x : ℚ
  y : ℚ
  z : ℚ
deriving DecidableEq, Inhabited

/-- Cross product of two 3-vectors. -/
def v3cross (a b : V3) : V3 :=
  ⟨a.y * b.z - a.z * b.y, a.z * b.x - a.x * b.z, a.x * b.y - a.y * b.x⟩

/-- A 4×4 matrix as produced by `Q44.tolist()`: rows of rationals. -/
abbrev Mat44 := List (List ℚ)

/-- Entry `(i, j)` of a matrix (default 0 out of range). -/
def mAt (m : Mat44) (i j : ℕ) : ℚ :=
  (m.getD i []).getD j 0

/-- Determinant of the upper-left 3×3 submatrix. -/
def det3 (m : Mat44) : ℚ :=
  mAt m 0 0 * (mAt m 1 1 * mAt m 2 2 - mAt m 1 2 * mAt m 2 1)
    - mAt m 0 1 * (mAt m 1 0 * mAt m 2 2 - mAt m 1 2 * mAt m 2 0)
    + mAt m 0 2 * (mAt m 1 0 * mAt m 2 1 - mAt m 1 1 * mAt m 2 0)

/-- Modelled from the spec: `nifti_dicom2mat` (module
`spec2nii.dcm2niiOrientation.orientationFuncs`, not under `src/`).  Third
direction vector is the cross product of the row and column direction
vectors; the 3×3 direction-cosine matrix has those three vectors as
columns, each scaled by the matching voxel-size component; the translation
column is the position; the bottom row is `[0,0,0,1]`.  It fails
(GeometryError) when a voxel-size component is nonpositive or the cross
product is degenerate (zero, hence determinant zero). -/
def nifti_dicom2mat (rowv colv pos sz : V3) : Option Mat44 :=
  if sz.x ≤ 0 ∨ sz.y ≤ 0 ∨ sz.z ≤ 0 then none
  else if v3cross rowv colv = ⟨0, 0, 0⟩ then none
  else
    some [[rowv.x * sz.x, colv.x * sz.y, (v3cross rowv colv).x * sz.z, pos.x],
          [rowv.y * sz.x, colv.y * sz.y, (v3cross rowv colv).y * sz.z, pos.y],
          [rowv.z * sz.x, colv.z * sz.y, (v3cross rowv colv).z * sz.z, pos.z],
          [0, 0, 0, 1]]

/-- `Q44[:2, :] *= -1` (dicomfunctions.py lines 125 and 156): negate the
first two rows. -/
def negFirstTwoRows (m : Mat44) : Mat44 :=
  match m with
  | r0 :: r1 :: rest => r0.map Neg.neg :: r1.map Neg.neg :: rest
  | _ => m

/-- Modelled from the spec: `NIFTIOrient` (module
`spec2nii.nifti_orientation`, not under `src/`) wraps the 4×4 affine and
exposes it as the attribute `Q44`. -/
structure NIFTIOrient where
  Q44 : Mat44
deriving DecidableEq, Inhabited

/-- A metadata value: string, number, or list of strings. -/
inductive MetaVal where
  | str : String → MetaVal
  | num : ℚ → MetaVal
  | strList : List String → MetaVal
deriving DecidableEq, Inhabited

/-- Modelled from the spec: the `nifti_mrs.hdr_ext` header-extension store
(not under `src/`): two mandatory construction inputs, a keyed store of
standard fields, a keyed store of user fields each carrying a
documentation string, and dimension annotations. -/
structure HdrExt where
  freq : ℚ
  nucleus : String
  standard : List (String × MetaVal)
  user : List (String × MetaVal × String)
  dims : List (ℕ × String)
deriving DecidableEq, Inhabited

/-- Modelled from the spec: constructing a header extension from the two
mandatory inputs. -/
def hdrInit (freq : ℚ) (nucleus : String) : HdrExt :=
  ⟨freq, nucleus, [], [], []⟩

/-- Modelled from the spec: `set_standard_def` stores a standard field
under its key, replacing any previous value. -/
def set_standard_def (k : String) (v : MetaVal) (h : HdrExt) : HdrExt :=
  { h with standard := (k, v) :: h.standard.filter (fun p => ¬(p.1 = k)) }

/-- Modelled from the spec: `set_user_def` stores a user field as a
(key, value, documentation) triple, replacing any previous value. -/
def set_user_def (k : String) (v : MetaVal) (doc : String) (h : HdrExt) : HdrExt :=
  { h with user := (k, v, doc) :: h.user.filter (fun p => ¬(p.1 = k)) }

/-- Modelled from the spec: `set_dim_info` annotates a higher dimension
with a tag label. -/
def set_dim_info (n : ℕ) (t : String) (h : HdrExt) : HdrExt :=
  { h with dims := (n, t) :: h.dims.filter (fun p => ¬(p.1 = n)) }

/-- Look up a standard field by key. -/
def getStandard (h : HdrExt) (k : String) : Option MetaVal :=
  (h.standard.find? (fun p => p.1 = k)).map (fun p => p.2)

/-- Look up a user field by key, returning the value and its documentation
string. -/
def getUser (h : HdrExt) (k : String) : Option (MetaVal × String) :=
  (h.user.find? (fun p => p.1 = k)).map (fun p => p.2)

/-- The CSA-header tags consumed by dicomfunctions.py: each tag resolves to
its ordered item list (`csa_header['tags'][name]['items']`). -/
structure CSATags where
  Rows : List ℕ
  Columns : List ℕ
  NumberOfFrames : List ℕ
  DataPointColumns : List ℕ
  ImageOrientationPatient : List ℚ
  VoiPosition : List ℚ
  VoiPhaseFoV : List ℚ
  VoiReadoutFoV : List ℚ
  VoiThickness : List ℚ
  ImagePositionPatient : List ℚ
  PixelSpacing : List ℚ
  SliceThickness : List ℚ
  RealDwellTime : List ℚ
  ImagingFrequency : List ℚ
  ImagedNucleus : List String
  ReceivingCoil : List String
  ImaCoilString : List String
  SequenceName : List String
  EchoTime : List ℚ
  InversionTime : List ℚ
  FlipAngle : List ℚ
  RepetitionTime : List ℚ
deriving DecidableEq, Inhabited

/-- The flat `dcm_data` fields consumed by dicomfunctions.py, with the raw
`(7fe1,1010)` element already decoded to its float32 values. -/
structure DcmData where
  tag7fe1_1010 : List ℚ
  SeriesDescription : String
  Manufacturer : String
  ManufacturerModelName : String
  DeviceSerialNumber : String
  SoftwareVersions : String
  InstitutionName : String
  InstitutionAddress : String
  ProtocolName : String
  PatientPosition : String
  PatientNameFamily : String
  PatientWeight : ℚ
  PatientBirthDate : String
  PatientSex : String
deriving DecidableEq, Inhabited

/-- One decoded DICOM file as seen by dicomfunctions.py. -/
structure DicomImg where
  csa : CSATags
  dcm : DcmData
deriving DecidableEq, Inhabited

/-- `svs_or_CSI` (dicomfunctions.py lines 13-22): `'CSI'` iff the product
of the Rows, Columns and NumberOfFrames tags exceeds one (`none` models
the IndexError when a geometry tag has no items). -/
def svs_or_CSI (img : DicomImg) : Option String :=
  match img.csa.Rows.head?, img.csa.Columns.head?, img.csa.NumberOfFrames.head? with
  | some rows, some cols, some slices =>
    some (if rows * cols * slices > 1 then "CSI" else "SVS")
  | _, _, _ => none

/-- First three entries of an item list as a 3-vector. -/
def vec3of (l : List ℚ) (off : ℕ) : V3 :=
  ⟨l.getD off 0, l.getD (off + 1) 0, l.getD (off + 2) 0⟩

/-- Orientation computation of the SVS path (dicomfunctions.py lines
115-127): reshape ImageOrientationPatient to two direction vectors, build
the affine from the VoI position and the VoI phase/readout/thickness voxel
sizes, then negate the first two rows. -/
def svs_orientation (img : DicomImg) : Option Mat44 :=
  if img.csa.ImageOrientationPatient.length = 6 ∧ 3 ≤ img.csa.VoiPosition.length then
    match img.csa.VoiPhaseFoV.head?, img.csa.VoiReadoutFoV.head?, img.csa.VoiThickness.head? with
    | some a, some b, some c =>
      (nifti_dicom2mat (vec3of img.csa.ImageOrientationPatient 0)
        (vec3of img.csa.ImageOrientationPatient 3)
        (vec3of img.csa.VoiPosition 0) ⟨a, b, c⟩).map negFirstTwoRows
    | _, _, _ => none
  else none

/-- Orientation computation of the CSI path (dicomfunctions.py lines
147-158): direction vectors from ImageOrientationPatient, position from
ImagePositionPatient, voxel sizes from PixelSpacing and SliceThickness,
then negate the first two rows. -/
def csi_orientation (img : DicomImg) : Option Mat44 :=
  if img.csa.ImageOrientationPatient.length = 6 ∧ 3 ≤ img.csa.ImagePositionPatient.length
      ∧ 2 ≤ img.csa.PixelSpacing.length then
    match img.csa.PixelSpacing.head?, (img.csa.PixelSpacing.drop 1).head?,
        img.csa.SliceThickness.head? with
    | some a, some b, some c =>
      (nifti_dicom2mat (vec3of img.csa.ImageOrientationPatient 0)
        (vec3of img.csa.ImageOrientationPatient 3)
        (vec3of img.csa.ImagePositionPatient 0) ⟨a, b, c⟩).map negFirstTwoRows
    | _, _, _ => none
  else none

/-- The coil-name choice of `extractDicomMetadata` (dicomfunctions.py lines
188-195): the first ReceivingCoil item when that tag has items, otherwise
the first ImaCoilString item. -/
def coilName (c : CSATags) : Option String :=
  match c.ReceivingCoil with
  | v :: _ => some v
  | [] => c.ImaCoilString.head?

/-- The field-population sequence of `extractDicomMetadata`
(dicomfunctions.py lines 176-227), given the successfully fetched tag
items.  `now` is the injected conversion timestamp. -/
def buildMeta (img : DicomImg) (now : String) (freq : ℚ) (nuc coil seqn : String)
    (te fa tr : ℚ) : HdrExt :=
  let o := hdrInit freq nuc
  let o := set_standard_def "Manufacturer" (.str img.dcm.Manufacturer) o
  let o := set_standard_def "ManufacturersModelName" (.str img.dcm.ManufacturerModelName) o
  let o := set_standard_def "DeviceSerialNumber" (.str img.dcm.DeviceSerialNumber) o
  let o := set_standard_def "SoftwareVersions" (.str img.dcm.SoftwareVersions) o
  let o := set_standard_def "InstitutionName" (.str img.dcm.InstitutionName) o
  let o := set_standard_def "InstitutionAddress" (.str img.dcm.InstitutionAddress) o
  let o := set_user_def "ReceiveCoilName" (.str coil) "Rx coil name." o
  let o := set_standard_def "SequenceName" (.str seqn) o
  let o := set_standard_def "ProtocolName" (.str img.dcm.ProtocolName) o
  let o := set_user_def "PulseSequenceFile" (.str seqn) "Sequence binary path." o
  let o := set_standard_def "PatientPosition" (.str img.dcm.PatientPosition) o
  let o := set_standard_def "PatientName" (.str img.dcm.PatientNameFamily) o
  let o := set_standard_def "PatientWeight" (.num img.dcm.PatientWeight) o
  let o := set_standard_def "PatientDoB" (.str img.dcm.PatientBirthDate) o
  let o := set_standard_def "PatientSex" (.str img.dcm.PatientSex) o
  let o := set_standard_def "EchoTime" (.num (te * (1 / 1000))) o
  let o := match img.csa.InversionTime with
    | t :: _ => set_standard_def "InversionTime" (.num t) o
    | [] => o
  let o := set_standard_def "ExcitationFlipAngle" (.num fa) o
  let o := set_standard_def "RepetitionTime" (.num (tr / 1000)) o
  let o := set_standard_def "ConversionMethod" (.str "spec2nii") o
  let o := set_standard_def "ConversionTime" (.str now) o
  o

/-- `extractDicomMetadata` (dicomfunctions.py lines 165-229): fetch the
required tag items (an empty required item list aborts the file) and
populate the header extension. -/
def extractDicomMetadata (img : DicomImg) (now : String) : Option HdrExt :=
  match img.csa.ImagingFrequency.head?, img.csa.ImagedNucleus.head?, coilName img.csa,
      img.csa.SequenceName.head?, img.csa.EchoTime.head?, img.csa.FlipAngle.head?,
      img.csa.RepetitionTime.head? with
  | some freq, some nuc, some coil, some seqn, some te, some fa, some tr =>
    some (buildMeta img now freq nuc coil seqn te fa tr)
  | _, _, _, _, _, _, _ => none

/-- `process_siemens_svs` (dicomfunctions.py lines 108-131): decoded 1-D
data, orientation, dwell time (`RealDwellTime * 1E-9` seconds) and
metadata. -/
def process_siemens_svs (img : DicomImg) (now : String) :
    Option (NDArray × NIFTIOrient × ℚ × HdrExt) :=
  match svs_extract img.dcm.tag7fe1_1010 with
  | none => none
  | some arr =>
    match svs_orientation img with
    | none => none
    | some q =>
      match img.csa.RealDwellTime.head? with
      | none => none
      | some rdt =>
        match extractDicomMetadata img now with
        | none => none
        | some meta => some (arr, ⟨q⟩, rdt * (1 / 1000000000), meta)

/-- `process_siemens_csi` (dicomfunctions.py lines 134-162): decoded and
axis-permuted 4-D data, orientation, dwell time and metadata. -/
def process_siemens_csi (img : DicomImg) (now : String) :
    Option (NDArray × NIFTIOrient × ℚ × HdrExt) :=
  match img.csa.Rows.head?, img.csa.Columns.head?, img.csa.NumberOfFrames.head?,
      img.csa.DataPointColumns.head? with
  | some rows, some cols, some slices, some points =>
    match csi_extract img.dcm.tag7fe1_1010 slices rows cols points with
    | none => none
    | some arr =>
      match csi_orientation img with
      | none => none
      | some q =>
        match img.csa.RealDwellTime.head? with
        | none => none
        | some rdt =>
          match extractDicomMetadata img now with
          | none => none
          | some meta => some (arr, ⟨q⟩, rdt * (1 / 1000000000), meta)
  | _, _, _, _ => none

/-- One per-file result of the conversion loop (dicomfunctions.py lines
51-54): data (SVS data already reshaped), orientation, dwell time,
metadata. -/
structure FileResult where
  data : NDArray
  orient : NIFTIOrient
  dwell : ℚ
  meta : HdrExt
deriving DecidableEq, Inhabited

/-- The per-file body of the loop in `multi_file_dicom` (dicomfunctions.py
lines 38-54): classify, process, and on the SVS path prepend the three
singleton spatial axes. -/
def convert_file (img : DicomImg) (now : String) : Option FileResult :=
  match svs_or_CSI img with
  | none => none
  | some t =>
    if t = "SVS" then
      match process_siemens_svs img now with
      | none => none
      | some (d, o, dt, m) => some ⟨svs_reshape d, o, dt, m⟩
    else
      match process_siemens_csi img now with
      | none => none
      | some (d, o, dt, m) => some ⟨d, o, dt, m⟩

/-- Fail-fast traversal: the conversion loop aborts the whole batch when
any file fails. -/
def mapMO (f : DicomImg → Option FileResult) : List DicomImg → Option (List FileResult)
  | [] => some []
  | a :: l =>
    match f a, mapMO f l with
    | some b, some bs => some (b :: bs)
    | _, _ => none

/-- `all_equal` (dicomfunctions.py lines 65-66): `lst[:-1] == lst[1:]`. -/
def all_equal {α : Type} [DecidableEq α] (l : List α) : Bool :=
  l.dropLast = l.tail

/-- The combinability test (dicomfunctions.py lines 68-70). -/
def combineTest (shapes : List (List ℕ)) (qs : List Mat44) (dts : List ℚ) : Bool :=
  all_equal shapes && all_equal qs && all_equal dts

/-- `np.stack(arrs, axis=-1)` for arrays of a common shape: one new
trailing axis of length `arrs.length`; element `(idx, n)` is `arrs[n]` at
`idx`, materialised in C order. -/
def stackLast (arrs : List NDArray) : NDArray :=
  let shape0 := (arrs.headD ⟨[], []⟩).shape
  ⟨shape0 ++ [arrs.length],
    buildList (fun p => arrs.map (fun a => a.data.getD p ⟨0, 0⟩)) shape0.prod⟩

/-- Python `f'{idx:03}'`: the decimal digits zero-padded to width three. -/
def pad3 (n : ℕ) : String :=
  let s := toString n
  if s.length < 3 then String.mk (List.replicate (3 - s.length) '0') ++ s else s

/-- The output stem (dicomfunctions.py lines 56-60): the override when it
is supplied and non-empty (Python truthiness), else the first file's
SeriesDescription. -/
def mainName (files : List (String × DicomImg)) (fname_out : Option String) : String :=
  let firstSD := match files with
    | [] => ""
    | (_, img) :: _ => img.dcm.SeriesDescription
  match fname_out with
  | some s => if s = "" then firstSD else s
  | none => firstSD

/-- The metadata of the combine branch (dicomfunctions.py lines 82-90):
the first file's metadata with the OriginalFile provenance field listing
every input path, and the dimension annotation when a non-empty tag was
supplied. -/
def combMeta (tag : Option String) (paths : List String) (m : HdrExt) : HdrExt :=
  let m' := set_standard_def "OriginalFile" (MetaVal.strList paths) m
  match tag with
  | some t => if t = "" then m' else set_dim_info 0 t m'
  | none => m'

/-- Modelled from the spec: the `nifti_mrs.NIfTI_MRS` container (not under
`src/`) stores its four constructor arguments. -/
structure NIfTI_MRS where
  data : NDArray
  q44 : Mat44
  dwelltime : ℚ
  meta : HdrExt
deriving DecidableEq, Inhabited

/-- The non-combine branch (dicomfunctions.py lines 94-103): one container
per file, provenance restricted to that file's path, names
`{stem}_{idx:03}`. -/
def emitSeparate (mainStr : String) : ℕ → List (FileResult × String) →
    List NIfTI_MRS × List String
  | _, [] => ([], [])
  | i, (r, p) :: rest =>
    let prev := emitSeparate mainStr (i + 1) rest
    (⟨r.data, r.orient.Q44, r.dwell,
        set_standard_def "OriginalFile" (MetaVal.strList [p]) r.meta⟩ :: prev.1,
      (mainStr ++ "_" ++ pad3 i) :: prev.2)

/-- The post-loop part of `multi_file_dicom` (dicomfunctions.py lines
62-105) on the successfully converted per-file results. -/
def emitResults (files : List (String × DicomImg)) (fname_out tag : Option String)
    (results : List FileResult) (r0 : FileResult) : List NIfTI_MRS × List String :=
  let mainStr := mainName files fname_out
  if combineTest (results.map (fun r => r.data.shape))
      (results.map (fun r => r.orient.Q44)) (results.map (fun r => r.dwell)) then
    ([⟨stackLast (results.map (fun r => r.data)), r0.orient.Q44, r0.dwell,
        combMeta tag (files.map Prod.fst) r0.meta⟩],
      [mainStr])
  else
    emitSeparate mainStr 0 (results.zip (files.map Prod.fst))

/-- `multi_file_dicom` (dicomfunctions.py lines 25-105): convert every file
(fail-fast), then either combine into one container or emit one container
per file.  An empty batch aborts (IndexError on `dwelltime_list[0]`). -/
def multi_file_dicom (files : List (String × DicomImg)) (fname_out tag : Option String)
    (now : String) : Option (List NIfTI_MRS × List String) :=
  match mapMO (fun img => convert_file img now) (files.map Prod.snd) with
  | none => none
  | some [] => none
  | some (r0 :: rest) => some (emitResults files fname_out tag (r0 :: rest) r0)

/-- A concrete single-voxel file used as a test input: geometry 1×1×1,
interleaved buffer `[1,2,3,4]`, axis-aligned orientation, series
description `"A"`, protocol name `"B"`. -/
def csaEx : CSATags where
  Rows := [1]
  Columns := [1]
  NumberOfFrames := [1]
  DataPointColumns := [2]
  ImageOrientationPatient := [1, 0, 0, 0, 1, 0]
  VoiPosition := [0, 0, 0]
  VoiPhaseFoV := [10]
  VoiReadoutFoV := [10]
  VoiThickness := [10]
  ImagePositionPatient := [0, 0, 0]
  PixelSpacing := [10, 10]
  SliceThickness := [10]
  RealDwellTime := [2000000000]
  ImagingFrequency := [123]
  ImagedNucleus := ["1H"]
  ReceivingCoil := ["HeadCoil"]
  ImaCoilString := ["HC"]
  SequenceName := ["svs_se"]
  EchoTime := [30]
  InversionTime := []
  FlipAngle := [90]
  RepetitionTime := [2000]

/-- The flat fields of the concrete test file. -/
def dcmEx : DcmData where
  tag7fe1_1010 := [1, 2, 3, 4]
  SeriesDescription := "A"
  Manufacturer := "Siemens"
  ManufacturerModelName := "M"
  DeviceSerialNumber := "1"
  SoftwareVersions := "V"
  InstitutionName := "I"
  InstitutionAddress := "Addr"
  ProtocolName := "B"
  PatientPosition := "HFS"
  PatientNameFamily := "P"
  PatientWeight := 70
  PatientBirthDate := "19900101"
  PatientSex := "O"

/-- The concrete test file. -/
def imgEx : DicomImg := ⟨csaEx, dcmEx⟩

/-- The test file with a different dwell time (breaks combinability). -/
def imgExDwell : DicomImg := ⟨{ csaEx with RealDwellTime := [1000000000] }, dcmEx⟩

/-- The test file with a different series description only. -/
def imgExSD2 : DicomImg := ⟨csaEx, { dcmEx with SeriesDescription := "A2" }⟩

/-- The test file with an empty primary receive-coil tag. -/
def imgExCoil : DicomImg := ⟨{ csaEx with ReceivingCoil := [], ImaCoilString := ["CoilB"] }, dcmEx⟩

/-- The test file with a malformed buffer of odd length 5. -/
def imgBad : DicomImg := ⟨csaEx, { dcmEx with tag7fe1_1010 := [1, 2, 3, 4, 5] }⟩

/-! ## List indexing helpers -/

theorem getD_append_lt {α : Type} (l l' : List α) (i : ℕ) (d : α) (h : i < l.length) :
    (l ++ l').getD i d = l.getD i d := by
  induction l generalizing i with
  | nil => simp at h
  | cons a t ih =>
    cases i with
    | zero => rfl
    | succ i => simpa using ih i (by simpa using h)

theorem getD_append_add {α : Type} (l l' : List α) (j : ℕ) (d : α) :
    (l ++ l').getD (l.length + j) d = l'.getD j d := by
  induction l with
  | nil => simp
  | cons a t ih => simpa [Nat.succ_add] using ih

theorem getD_map_lt {α β : Type} (f : α → β) (l : List α) (i : ℕ) (d : β) (d' : α)
    (h : i < l.length) : (l.map f).getD i d = f (l.getD i d') := by
  induction l generalizing i with
  | nil => simp at h
  | cons a t ih =>
    cases i with
    | zero => rfl
    | succ i => simpa using ih i (by simpa using h)

theorem getD_mem_of_lt {α : Type} (l : List α) (i : ℕ) (d : α) (h : i < l.length) :
    l.getD i d ∈ l := by
  induction l generalizing i with
  | nil => simp at h
  | cons a t ih =>
    cases i with
    | zero => simp
    | succ i => exact List.mem_cons_of_mem a (ih i (by simpa using h))

theorem getD_zip_lt {α β : Type} (l : List α) (m : List β) (i : ℕ) (d : α) (e : β)
    (hl : i < l.length) (hm : i < m.length) :
    (l.zip m).getD i (d, e) = (l.getD i d, m.getD i e) := by
  induction l generalizing m i with
  | nil => simp at hl
  | cons a t ih =>
    cases m with
    | nil => simp at hm
    | cons b u =>
      cases i with
      | zero => rfl
      | succ i => simpa using ih u i (by simpa using hl) (by simpa using hm)

theorem headD_mem {α : Type} (l : List α) (d : α) (h : l ≠ []) : l.headD d ∈ l := by
  cases l with
  | nil => exact absurd rfl h
  | cons a t => simp

theorem zipWith_getD_lt {α β γ : Type} (f : α → β → γ) (l : List α) (m : List β)
    (i : ℕ) (d : γ) (d₁ : α) (d₂ : β) (hl : i < l.length) (hm : i < m.length) :
    (List.zipWith f l m).getD i d = f (l.getD i d₁) (m.getD i d₂) := by
  induction l generalizing m i with
  | nil => simp at hl
  | cons a t ih =>
    cases m with
    | nil => simp at hm
    | cons b u =>
      cases i with
      | zero => rfl
      | succ i => simpa using ih u i (by simpa using hl) (by simpa using hm)

theorem zipWith_length_eq {α β γ : Type} (f : α → β → γ) (l : List α) (m : List β)
    (h : l.length = m.length) : (List.zipWith f l m).length = l.length := by
  simp [List.length_zipWith, h]

/-! ## buildList and flat indices -/

theorem buildList_length_eq (f : ℕ → List Cplx) (m : ℕ) (hf : ∀ k, (f k).length = m) :
    ∀ n, (buildList f n).length = n * m
  | 0 => by simp [buildList]
  | n + 1 => by
    simp [buildList, buildList_length_eq f m hf n, hf n, Nat.succ_mul]

theorem muladd_lt {i n j m : ℕ} (hi : i < n) (hj : j < m) : i * m + j < n * m := by
  calc i * m + j < i * m + m := by omega
    _ = (i + 1) * m := by ring
    _ ≤ n * m := Nat.mul_le_mul_right m hi

theorem buildList_getD_eq (f : ℕ → List Cplx) (m : ℕ) (hf : ∀ k, (f k).length = m)
    (d : Cplx) : ∀ n i j, i < n → j < m →
    (buildList f n).getD (i * m + j) d = (f i).getD j d
  | 0, i, j, hi, hj => by omega
  | n + 1, i, j, hi, hj => by
    rcases Nat.lt_or_ge i n with h | h
    · rw [buildList, getD_append_lt _ _ _ _ (by
        rw [buildList_length_eq f m hf n]; exact muladd_lt h hj)]
      exact buildList_getD_eq f m hf d n i j h hj
    · have hin : i = n := by omega
      subst hin
      rw [buildList, show i * m + j = (buildList f i).length + j by
        rw [buildList_length_eq f m hf i], getD_append_add]

theorem buildList_getD_one (f : ℕ → List Cplx) (hf : ∀ k, (f k).length = 1)
    (d : Cplx) (n i : ℕ) (hi : i < n) :
    (buildList f n).getD i d = (f i).getD 0 d := by
  have := buildList_getD_eq f 1 hf d n i 0 hi (by omega)
  simpa using this

theorem flatIdx_lt_prod {idx S : List ℕ} (h : List.Forall₂ (· < ·) idx S) :
    flatIdx S idx < S.prod := by
  induction h with
  | nil => simp [flatIdx]
  | cons hab _ ih =>
    rw [flatIdx, List.prod_cons]
    exact muladd_lt hab ih

theorem flatIdx_append_one {idx S : List ℕ} (N n : ℕ) (h : idx.length = S.length) :
    flatIdx (S ++ [N]) (idx ++ [n]) = flatIdx S idx * N + n := by
  induction S generalizing idx with
  | nil =>
    cases idx with
    | nil => simp [flatIdx]
    | cons a t => simp at h
  | cons s ts ih =>
    cases idx with
    | nil => simp at h
    | cons a t =>
      have ht := @ih t (by simpa using h)
      show a * (ts ++ [N]).prod + flatIdx (ts ++ [N]) (t ++ [n]) =
        (a * ts.prod + flatIdx ts t) * N + n
      rw [ht, List.prod_append, List.prod_cons, List.prod_nil]
      ring

/-! ## evens / odds / decode -/

theorem evens_length_eq : ∀ l : List ℚ, (evens l).length = (l.length + 1) / 2
  | [] => rfl
  | [a] => by norm_num [evens]
  | a :: b :: rest => by
    simp [evens, evens_length_eq rest]
    omega

theorem odds_length_eq : ∀ l : List ℚ, (odds l).length = l.length / 2
  | [] => rfl
  | [a] => by norm_num [odds]
  | a :: b :: rest => by
    simp [odds, odds_length_eq rest]
    omega

theorem evens_getD : ∀ (l : List ℚ) (k : ℕ) (d : ℚ), (evens l).getD k d = l.getD (2 * k) d
  | [], k, d => by simp [evens]
  | [a], k, d => by
    cases k with
    | zero => rfl
    | succ k =>
      show ([a] : List ℚ).getD (k + 1) d = ([a] : List ℚ).getD (2 * (k + 1)) d
      rw [List.getD_eq_default, List.getD_eq_default] <;> simp only [List.length_singleton] <;> omega
  | a :: b :: rest, k, d => by
    cases k with
    | zero => rfl
    | succ k =>
      rw [show 2 * (k + 1) = (2 * k + 1) + 1 by omega]
      simpa [evens] using evens_getD rest k d

theorem odds_getD : ∀ (l : List ℚ) (k : ℕ) (d : ℚ), (odds l).getD k d = l.getD (2 * k + 1) d
  | [], k, d => by simp [odds]
  | [a], k, d => by
    cases k with
    | zero => rfl
    | succ k =>
      show d = ([a] : List ℚ).getD (2 * (k + 1) + 1) d
      rw [List.getD_eq_default]
      simp only [List.length_singleton]
      omega
  | a :: b :: rest, k, d => by
    cases k with
    | zero => rfl
    | succ k =>
      rw [show 2 * (k + 1) + 1 = (2 * k + 1) + 1 + 1 by omega]
      simpa [odds] using odds_getD rest k d

theorem decode_none_iff (buf : List ℚ) :
    decodeInterleaved buf = none ↔ buf.length % 2 = 1 ∧ 5 ≤ buf.length := by
  unfold decodeInterleaved npBroadcastSub
  rw [evens_length_eq, odds_length_eq]
  split_ifs with h1 h2 h3 <;> simp <;> omega

theorem decode_even (buf : List ℚ) (N : ℕ) (h : buf.length = 2 * N) :
    decodeInterleaved buf =
      some (List.zipWith (fun a b => ⟨a, -b⟩) (evens buf) (odds buf)) := by
  unfold decodeInterleaved npBroadcastSub
  rw [if_pos]
  rw [evens_length_eq, odds_length_eq, h]
  omega

theorem decode_length_even (buf : List ℚ) (N : ℕ) (h : buf.length = 2 * N) (d : List Cplx)
    (hd : decodeInterleaved buf = some d) : d.length = N := by
  rw [decode_even buf N h] at hd
  cases hd
  rw [zipWith_length_eq, evens_length_eq, h]
  · omega
  · rw [evens_length_eq, odds_length_eq]; omega

/-! ## all_equal -/

theorem dropLast_eq_tail_iff {α : Type} :
    ∀ l : List α, l.dropLast = l.tail ↔ ∀ x ∈ l, ∀ y ∈ l, x = y
  | [] => by simp
  | [a] => by simp
  | a :: b :: t => by
    have ih := dropLast_eq_tail_iff (b :: t)
    constructor
    · intro h x hx y hy
      have hstep : a = b ∧ (b :: t).dropLast = (b :: t).tail := by
        have : a :: (b :: t).dropLast = b :: t := h
        exact ⟨(List.cons.injEq _ _ _ _ ▸ this).1, (List.cons.injEq _ _ _ _ ▸ this).2⟩
      have hall := ih.1 hstep.2
      have hx' : x = a ∨ x ∈ b :: t := by simpa using hx
      have hy' : y = a ∨ y ∈ b :: t := by simpa using hy
      rcases hx' with rfl | hx' <;> rcases hy' with rfl | hy'
      · rfl
      · exact hstep.1.trans (hall b (by simp) y hy')
      · exact (hstep.1.trans (hall b (by simp) x hx')).symm
      · exact hall x hx' y hy'
    · intro h
      have hab : a = b := h a (by simp) b (by simp)
      have : (b :: t).dropLast = (b :: t).tail :=
        ih.2 (fun x hx y hy => h x (List.mem_cons_of_mem a hx) y (List.mem_cons_of_mem a hy))
      show a :: (b :: t).dropLast = b :: t
      rw [this, hab]
      rfl

theorem all_equal_iff {α : Type} [DecidableEq α] (l : List α) :
    all_equal l = true ↔ ∀ x ∈ l, ∀ y ∈ l, x = y := by
  unfold all_equal
  rw [decide_eq_true_eq]
  exact dropLast_eq_tail_iff l

theorem combineTest_iff (shapes : List (List ℕ)) (qs : List Mat44) (dts : List ℚ) :
    combineTest shapes qs dts = true ↔
      (∀ x ∈ shapes, ∀ y ∈ shapes, x = y) ∧
      (∀ x ∈ qs, ∀ y ∈ qs, x = y) ∧
      (∀ x ∈ dts, ∀ y ∈ dts, x = y) := by
  unfold combineTest
  rw [Bool.and_eq_true, Bool.and_eq_true, all_equal_iff, all_equal_iff, all_equal_iff]
  tauto

/-! ## Metadata store lookups -/

theorem getStandard_set_self (k : String) (v : MetaVal) (m : HdrExt) :
    getStandard (set_standard_def k v m) k = some v := by
  simp [getStandard, set_standard_def, List.find?]

theorem getStandard_set_dim (n : ℕ) (t : String) (m : HdrExt) (k : String) :
    getStandard (set_dim_info n t m) k = getStandard m k := rfl

theorem getStandard_combMeta (tag : Option String) (ps : List String) (m : HdrExt) :
    getStandard (combMeta tag ps m) "OriginalFile" = some (MetaVal.strList ps) := by
  unfold combMeta
  cases tag with
  | none => exact getStandard_set_self _ _ _
  | some t =>
    by_cases ht : t = "" <;> simp [ht, getStandard_set_dim, getStandard_set_self]

theorem getUser_set_standard (k : String) (v : MetaVal) (m : HdrExt) (k' : String) :
    getUser (set_standard_def k v m) k' = getUser m k' := rfl

/-! ## Fail-fast traversal -/

theorem mapMO_length (f : DicomImg → Option FileResult) :
    ∀ (l : List DicomImg) (r : List FileResult), mapMO f l = some r → r.length = l.length
  | [], r, h => by cases h; rfl
  | a :: l, r, h => by
    unfold mapMO at h
    cases hfa : f a with
    | none => rw [hfa] at h; cases h
    | some b =>
      rw [hfa] at h
      cases hfl : mapMO f l with
      | none => rw [hfl] at h; cases h
      | some bs =>
        rw [hfl] at h
        cases h
        simpa using mapMO_length f l bs hfl

theorem mapMO_getD (f : DicomImg → Option FileResult) :
    ∀ (l : List DicomImg) (r : List FileResult), mapMO f l = some r →
      ∀ i, i < l.length → f (l.getD i default) = some (r.getD i default)
  | [], r, h, i, hi => by simp at hi
  | a :: l, r, h, i, hi => by
    unfold mapMO at h
    cases hfa : f a with
    | none => rw [hfa] at h; cases h
    | some b =>
      rw [hfa] at h
      cases hfl : mapMO f l with
      | none => rw [hfl] at h; cases h
      | some bs =>
        rw [hfl] at h
        cases h
        cases i with
        | zero => simpa using hfa
        | succ i => simpa using mapMO_getD f l bs hfl i (by simpa using hi)

/-! ## Stacking, axis permutation, per-file emission -/

theorem stackLast_shape (arrs : List NDArray) :
    (stackLast arrs).shape = (arrs.headD ⟨[], []⟩).shape ++ [arrs.length] := rfl

theorem stackLast_entry (arrs : List NDArray) (S : List ℕ)
    (hS : ∀ a ∈ arrs, a.shape = S) (hne : arrs ≠ [])
    (n : ℕ) (hn : n < arrs.length) (idx : List ℕ)
    (hidx : List.Forall₂ (· < ·) idx S) :
    (stackLast arrs).entry (idx ++ [n]) = (arrs.getD n ⟨[], []⟩).entry idx := by
  have hhead : (arrs.headD ⟨[], []⟩).shape = S := hS _ (headD_mem arrs _ hne)
  have hlenS : idx.length = S.length := hidx.length_eq
  have hp : flatIdx S idx < S.prod := flatIdx_lt_prod hidx
  unfold stackLast NDArray.entry
  simp only [hhead]
  rw [flatIdx_append_one _ _ hlenS,
    buildList_getD_eq _ arrs.length (fun k => by simp) _ S.prod _ _ hp hn,
    getD_map_lt _ _ _ _ ⟨[], []⟩ hn]
  rw [hS _ (getD_mem_of_lt arrs n _ hn)]

theorem moveaxis210_entry (s r c p : ℕ) (d : List Cplx)
    (i0 i1 i2 i3 : ℕ) (h0 : i0 < c) (h1 : i1 < r) (h2 : i2 < s) (h3 : i3 < p) :
    (moveaxis210 ⟨[s, r, c, p], d⟩).entry [i0, i1, i2, i3] =
      (NDArray.mk [s, r, c, p] d).entry [i2, i1, i0, i3] := by
  have len1 : ∀ (a b e : ℕ),
      (buildList (fun v => [(NDArray.mk [s, r, c, p] d).entry [e, b, a, v]]) p).length = p :=
    fun a b e => by
      simpa using buildList_length_eq
        (fun v => [(NDArray.mk [s, r, c, p] d).entry [e, b, a, v]]) 1 (fun _ => rfl) p
  have len2 : ∀ (a b : ℕ),
      (buildList (fun e => buildList
        (fun v => [(NDArray.mk [s, r, c, p] d).entry [e, b, a, v]]) p) s).length = s * p :=
    fun a b => buildList_length_eq _ p (fun e => len1 a b e) s
  have len3 : ∀ (a : ℕ),
      (buildList (fun b => buildList (fun e => buildList
        (fun v => [(NDArray.mk [s, r, c, p] d).entry [e, b, a, v]]) p) s) r).length =
        r * (s * p) :=
    fun a => buildList_length_eq _ (s * p) (fun b => len2 a b) r
  have key : flatIdx [c, r, s, p] [i0, i1, i2, i3] =
      i0 * (r * (s * p)) + (i1 * (s * p) + (i2 * p + i3)) := by
    simp [flatIdx]
  show (buildList (fun b0 => buildList (fun b1 => buildList (fun b2 => buildList
      (fun b3 => [(NDArray.mk [s, r, c, p] d).entry [b2, b1, b0, b3]]) p) s) r) c).getD
      (flatIdx [c, r, s, p] [i0, i1, i2, i3]) ⟨0, 0⟩ =
    (NDArray.mk [s, r, c, p] d).entry [i2, i1, i0, i3]
  rw [key]
  rw [buildList_getD_eq _ (r * (s * p)) len3 _ c i0 _ h0 (muladd_lt h1 (muladd_lt h2 h3))]
  rw [buildList_getD_eq _ (s * p) (fun b => len2 i0 b) _ r i1 _ h1 (muladd_lt h2 h3)]
  rw [buildList_getD_eq _ p (fun e => len1 i0 i1 e) _ s i2 _ h2 h3]
  rw [buildList_getD_one (fun v => [(NDArray.mk [s, r, c, p] d).entry [i2, i1, i0, v]])
    (fun _ => rfl) _ p i3 h3]
  rfl

theorem emitSeparate_fst_length (ms : String) :
    ∀ (k : ℕ) (l : List (FileResult × String)), (emitSeparate ms k l).1.length = l.length
  | _, [] => rfl
  | k, (r, p) :: rest => by
    simpa [emitSeparate] using emitSeparate_fst_length ms (k + 1) rest

theorem emitSeparate_snd_length (ms : String) :
    ∀ (k : ℕ) (l : List (FileResult × String)), (emitSeparate ms k l).2.length = l.length
  | _, [] => rfl
  | k, (r, p) :: rest => by
    simpa [emitSeparate] using emitSeparate_snd_length ms (k + 1) rest

theorem emitSeparate_getD (ms : String) :
    ∀ (k i : ℕ) (l : List (FileResult × String)), i < l.length →
      (emitSeparate ms k l).1.getD i default =
        ⟨(l.getD i default).1.data, (l.getD i default).1.orient.Q44,
          (l.getD i default).1.dwell,
          set_standard_def "OriginalFile" (MetaVal.strList [(l.getD i default).2])
            (l.getD i default).1.meta⟩ ∧
      (emitSeparate ms k l).2.getD i "" = ms ++ "_" ++ pad3 (k + i)
  | k, i, [], hi => by simp at hi
  | k, 0, (r, p) :: rest, hi => by simp [emitSeparate]
  | k, i + 1, (r, p) :: rest, hi => by
    have ih := emitSeparate_getD ms (k + 1) i rest (by simpa using hi)
    simpa [emitSeparate, Nat.add_assoc, Nat.add_comm 1 i] using ih

/-! ## Running the combiner -/

theorem multi_run (files : List (String × DicomImg)) (fo tag : Option String) (now : String)
    (r0 : FileResult) (rest : List FileResult)
    (hconv : mapMO (fun img => convert_file img now) (files.map Prod.snd) = some (r0 :: rest)) :
    multi_file_dicom files fo tag now = some (emitResults files fo tag (r0 :: rest) r0) := by
  unfold multi_file_dicom
  rw [hconv]

theorem emitResults_combine (files : List (String × DicomImg)) (fo tag : Option String)
    (results : List FileResult) (r0 : FileResult)
    (hcomb : combineTest (results.map fun r => r.data.shape)
      (results.map fun r => r.orient.Q44) (results.map fun r => r.dwell) = true) :
    emitResults files fo tag results r0 =
      ([⟨stackLast (results.map fun r => r.data), r0.orient.Q44, r0.dwell,
          combMeta tag (files.map Prod.fst) r0.meta⟩],
        [mainName files fo]) := by
  unfold emitResults
  rw [if_pos hcomb]

theorem emitResults_separate (files : List (String × DicomImg)) (fo tag : Option String)
    (results : List FileResult) (r0 : FileResult)
    (hcomb : combineTest (results.map fun r => r.data.shape)
      (results.map fun r => r.orient.Q44) (results.map fun r => r.dwell) = false) :
    emitResults files fo tag results r0 =
      emitSeparate (mainName files fo) 0 (results.zip (files.map Prod.fst)) := by
  unfold emitResults
  rw [if_neg (by rw [hcomb]; exact Bool.false_ne_true)]

theorem combine_shape_eq (results : List FileResult)
    (hcomb : combineTest (results.map fun r => r.data.shape)
      (results.map fun r => r.orient.Q44) (results.map fun r => r.dwell) = true)
    (r : FileResult) (hr : r ∈ results) :
    r.data.shape = (results.headD default).data.shape := by
  have hne : results ≠ [] := by rintro rfl; simp at hr
  have h1 := ((combineTest_iff _ _ _).1 hcomb).1
  exact h1 _ (List.mem_map_of_mem _ hr) _ (List.mem_map_of_mem _ (headD_mem results default hne))

theorem getUser_buildMeta (img : DicomImg) (now : String) (freq : ℚ) (nuc coil seqn : String)
    (te fa tr : ℚ) :
    getUser (buildMeta img now freq nuc coil seqn te fa tr) "ReceiveCoilName" =
      some (MetaVal.str coil, "Rx coil name.") := by
  unfold buildMeta
  cases img.csa.InversionTime <;>
    simp [getUser, set_user_def, set_standard_def, hdrInit, List.find?, List.filter]

/-! ## Claim theorems -/

/-- C1: for every batch of per-file results, the combiner judges them
combinable if and only if all data-array shapes are identical, all
orientation matrices are exactly equal element-wise, and all dwell times
are exactly equal — plain equality, no numeric tolerance anywhere. -/
theorem combine_iff_all_identical (results : List FileResult) :
    combineTest (results.map fun r => r.data.shape) (results.map fun r => r.orient.Q44)
      (results.map fun r => r.dwell) = true ↔
    ((∀ r ∈ results, ∀ r' ∈ results, r.data.shape = r'.data.shape) ∧
      (∀ r ∈ results, ∀ r' ∈ results, r.orient.Q44 = r'.orient.Q44) ∧
      (∀ r ∈ results, ∀ r' ∈ results, r.dwell = r'.dwell)) := by
  rw [combineTest_iff]
  constructor
  · rintro ⟨h1, h2, h3⟩
    exact ⟨fun r hr r' hr' => h1 _ (List.mem_map_of_mem _ hr) _ (List.mem_map_of_mem _ hr'),
      fun r hr r' hr' => h2 _ (List.mem_map_of_mem _ hr) _ (List.mem_map_of_mem _ hr'),
      fun r hr r' hr' => h3 _ (List.mem_map_of_mem _ hr) _ (List.mem_map_of_mem _ hr')⟩
  · rintro ⟨h1, h2, h3⟩
    refine ⟨?_, ?_, ?_⟩ <;> intro x hx y hy
    · obtain ⟨r, hr, rfl⟩ := List.mem_map.1 hx
      obtain ⟨r', hr', rfl⟩ := List.mem_map.1 hy
      exact h1 r hr r' hr'
    · obtain ⟨r, hr, rfl⟩ := List.mem_map.1 hx
      obtain ⟨r', hr', rfl⟩ := List.mem_map.1 hy
      exact h2 r hr r' hr'
    · obtain ⟨r, hr, rfl⟩ := List.mem_map.1 hx
      obtain ⟨r', hr', rfl⟩ := List.mem_map.1 hy
      exact h3 r hr r' hr'

/-- C4: for every interleaved buffer of even length `2*N`, the
single-voxel extraction decodes one complex sequence of length `N` whose
sample `k` is `buf[2k] - i*buf[2k+1]` (scanner sign convention), and the
single-voxel reshape embeds it with three leading singleton axes, giving
shape `(1,1,1,N)`. -/
theorem svs_decode_spec (buf : List ℚ) (N : ℕ) (h : buf.length = 2 * N) :
    ∃ d, decodeInterleaved buf = some d ∧ d.length = N ∧
      svs_extract buf = some ⟨[N], d⟩ ∧
      (svs_reshape ⟨[N], d⟩).shape = [1, 1, 1, N] ∧
      ∀ k, k < N → d.getD k ⟨0, 0⟩ = ⟨buf.getD (2 * k) 0, -(buf.getD (2 * k + 1) 0)⟩ := by
  have hel : (evens buf).length = N := by rw [evens_length_eq, h]; omega
  have hol : (odds buf).length = N := by rw [odds_length_eq, h]; omega
  have hdev : decodeInterleaved buf =
      some (List.zipWith (fun a b => (⟨a, -b⟩ : Cplx)) (evens buf) (odds buf)) :=
    decode_even buf N h
  have hdl : (List.zipWith (fun a b => (⟨a, -b⟩ : Cplx)) (evens buf) (odds buf)).length = N := by
    rw [zipWith_length_eq _ _ _ (by rw [hel, hol]), hel]
  refine ⟨_, hdev, hdl, ?_, by simp [svs_reshape], ?_⟩
  · simp only [svs_extract, hdev, hdl]
  · intro k hk
    rw [zipWith_getD_lt _ _ _ _ _ 0 0 (by rw [hel]; exact hk) (by rw [hol]; exact hk),
      evens_getD, odds_getD]

/-- Witness for C4 at the concrete buffer `[5,6,7,8]`. -/
theorem svs_decode_spec_witness :
    decodeInterleaved [(5 : ℚ), 6, 7, 8] = some [⟨5, -6⟩, ⟨7, -8⟩] ∧
    svs_extract [(5 : ℚ), 6, 7, 8] = some ⟨[2], [⟨5, -6⟩, ⟨7, -8⟩]⟩ := by
  obtain ⟨d, h1, h2, h3, h4, h5⟩ := svs_decode_spec [5, 6, 7, 8] 2 (by decide)
  have he : decodeInterleaved [(5 : ℚ), 6, 7, 8] = some [⟨5, -6⟩, ⟨7, -8⟩] := by decide
  rw [he] at h1
  cases h1
  exact ⟨he, h3⟩

/-- C5: for every multi-voxel acquisition whose decoded sample count
matches `slices*rows*cols*points`, the extractor reshapes to storage order
`(slices, rows, cols, points)` and permutes the spatial axes, so the
result has shape `(cols, rows, slices, points)` and its element at
`(c, r, s, k)` is the storage-order element at `(s, r, c, k)`. -/
theorem csi_reorder_spec (buf : List ℚ) (slices rows cols points : ℕ) (d : List Cplx)
    (hd : decodeInterleaved buf = some d)
    (hlen : d.length = slices * rows * cols * points) :
    csi_extract buf slices rows cols points =
      some (moveaxis210 ⟨[slices, rows, cols, points], d⟩) ∧
    (moveaxis210 ⟨[slices, rows, cols, points], d⟩).shape = [cols, rows, slices, points] ∧
    ∀ cc rr ss k, cc < cols → rr < rows → ss < slices → k < points →
      (moveaxis210 ⟨[slices, rows, cols, points], d⟩).entry [cc, rr, ss, k] =
        (NDArray.mk [slices, rows, cols, points] d).entry [ss, rr, cc, k] := by
  refine ⟨?_, rfl, ?_⟩
  · simp [csi_extract, hd, hlen]
  · intro cc rr ss k h1 h2 h3 h4
    exact moveaxis210_entry slices rows cols points d cc rr ss k h1 h2 h3 h4

/-- Witness for C5 at buffer `[1,2,3,4]` with counts (1,1,2,1). -/
theorem csi_reorder_spec_witness :
    csi_extract [(1 : ℚ), 2, 3, 4] 1 1 2 1 = some ⟨[2, 1, 1, 1], [⟨1, -2⟩, ⟨3, -4⟩]⟩ ∧
    (moveaxis210 ⟨[1, 1, 2, 1], [⟨1, -2⟩, ⟨3, -4⟩]⟩).entry [1, 0, 0, 0] = ⟨3, -4⟩ := by
  obtain ⟨h1, h2, h3⟩ :=
    csi_reorder_spec [1, 2, 3, 4] 1 1 2 1 [⟨1, -2⟩, ⟨3, -4⟩] (by decide) (by decide)
  constructor
  · rw [h1]; decide
  · rw [h3 1 0 0 0 (by decide) (by decide) (by decide) (by decide)]; decide

/-- C6: for geometry tags all at least one, the classifier answers CSI
(multi-voxel) exactly when `rows*cols*frames > 1`, and SVS (single-voxel)
exactly when all three counts equal one. -/
theorem classifier_spec (img : DicomImg) (r c s : ℕ)
    (hr : img.csa.Rows.head? = some r) (hc : img.csa.Columns.head? = some c)
    (hs : img.csa.NumberOfFrames.head? = some s)
    (h1 : 1 ≤ r) (h2 : 1 ≤ c) (h3 : 1 ≤ s) :
    (svs_or_CSI img = some "CSI" ↔ 1 < r * c * s) ∧
    (svs_or_CSI img = some "SVS" ↔ r = 1 ∧ c = 1 ∧ s = 1) := by
  unfold svs_or_CSI
  rw [hr, hc, hs]
  show (some (if r * c * s > 1 then "CSI" else "SVS") = some "CSI" ↔ 1 < r * c * s) ∧
    (some (if r * c * s > 1 then "CSI" else "SVS") = some "SVS" ↔ r = 1 ∧ c = 1 ∧ s = 1)
  by_cases hgt : r * c * s > 1
  · rw [if_pos hgt]
    refine ⟨⟨fun _ => hgt, fun _ => rfl⟩, ?_, ?_⟩
    · intro hx
      exact absurd (Option.some.inj hx) (by decide)
    · rintro ⟨rfl, rfl, rfl⟩
      exact absurd hgt (by decide)
  · rw [if_neg hgt]
    have hone : r = 1 ∧ c = 1 ∧ s = 1 := by
      have hpos : 0 < r * c * s := Nat.mul_pos (Nat.mul_pos h1 h2) h3
      have heq : r * c * s = 1 := by omega
      have hs1 : s = 1 := Nat.eq_one_of_mul_eq_one_left heq
      have hrc : r * c = 1 := Nat.eq_one_of_mul_eq_one_right heq
      exact ⟨Nat.eq_one_of_mul_eq_one_right hrc, Nat.eq_one_of_mul_eq_one_left hrc, hs1⟩
    exact ⟨⟨fun hx => absurd (Option.some.inj hx) (by decide), fun hx => absurd hx hgt⟩,
      ⟨fun _ => hone, fun _ => rfl⟩⟩

/-- Witness for C6 at the concrete 1×1×1 file. -/
theorem classifier_spec_witness : svs_or_CSI imgEx = some "SVS" :=
  ((classifier_spec imgEx 1 1 1 rfl rfl rfl (by decide) (by decide) (by decide)).2).mpr
    ⟨rfl, rfl, rfl⟩

/-- C7 counterexample: an odd buffer of length 3 does not make the
extraction fail — NumPy broadcasting of the length-2 even slice against
the length-1 odd slice silently succeeds on both paths, and on the
multi-voxel path it succeeds although the buffer length differs from
`2*slices*rows*cols*points`. -/
theorem odd_buffer_counterexample :
    [(1 : ℚ), 2, 3].length % 2 = 1 ∧
    decodeInterleaved [(1 : ℚ), 2, 3] = some [⟨1, -2⟩, ⟨3, -2⟩] ∧
    (svs_extract [(1 : ℚ), 2, 3]).isSome = true ∧
    [(1 : ℚ), 2, 3].length ≠ 2 * (1 * 1 * 2 * 1) ∧
    csi_extract [(1 : ℚ), 2, 3] 1 1 2 1 = some ⟨[2, 1, 1, 1], [⟨1, -2⟩, ⟨3, -2⟩]⟩ := by
  refine ⟨by decide, by decide, by decide, by decide, by decide⟩

/-- C7 (amended): decoding fails exactly when the buffer length is odd
and at least five (for odd lengths one and three NumPy broadcasting
silently succeeds); the single-voxel extraction fails exactly when the
decode fails; the multi-voxel extraction fails exactly when the decode
fails or the decoded sample count differs from
`slices*rows*cols*points`; and a file whose decode fails produces no
per-file result. -/
theorem extraction_failure_spec (buf : List ℚ) (slices rows cols points : ℕ)
    (img : DicomImg) (now : String) :
    (decodeInterleaved buf = none ↔ buf.length % 2 = 1 ∧ 5 ≤ buf.length) ∧
    (svs_extract buf = none ↔ decodeInterleaved buf = none) ∧
    (csi_extract buf slices rows cols points = none ↔
      (decodeInterleaved buf = none ∨
        ((decodeInterleaved buf).getD []).length ≠ slices * rows * cols * points)) ∧
    (decodeInterleaved img.dcm.tag7fe1_1010 = none → convert_file img now = none) := by
  refine ⟨decode_none_iff buf, ?_, ?_, ?_⟩
  · unfold svs_extract
    cases decodeInterleaved buf <;> simp
  · unfold csi_extract
    cases hd : decodeInterleaved buf with
    | none => simp
    | some d =>
      simp only [Option.getD_some]
      split_ifs with hlen
      · simp [hlen]
      · simp [hlen]
  · intro hdec
    have hsvs : svs_extract img.dcm.tag7fe1_1010 = none := by
      unfold svs_extract
      rw [hdec]
    have hcsi : ∀ a b c d, csi_extract img.dcm.tag7fe1_1010 a b c d = none := by
      intro a b c d
      unfold csi_extract
      rw [hdec]
    have hps : process_siemens_svs img now = none := by
      unfold process_siemens_svs
      rw [hsvs]
    have hpc : process_siemens_csi img now = none := by
      unfold process_siemens_csi
      cases img.csa.Rows.head? with
      | none => rfl
      | some rows =>
        cases img.csa.Columns.head? with
        | none => rfl
        | some cols =>
          cases img.csa.NumberOfFrames.head? with
          | none => rfl
          | some slc =>
            cases img.csa.DataPointColumns.head? with
            | none => rfl
            | some pts => simp [hcsi]
    unfold convert_file
    cases svs_or_CSI img with
    | none => rfl
    | some t => simp [hps, hpc]

/-- Witness for C7 at the odd length-5 buffer and the matching file. -/
theorem extraction_failure_spec_witness :
    decodeInterleaved [(1 : ℚ), 2, 3, 4, 5] = none ∧ convert_file imgBad "t" = none := by
  obtain ⟨h1, h2, h3, h4⟩ := extraction_failure_spec [(1 : ℚ), 2, 3, 4, 5] 0 0 0 0 imgBad "t"
  exact ⟨h1.mpr (by decide), h4 (h1.mpr (by decide))⟩

/-- C8: the orientation calculation fails exactly when a voxel-size
component is nonpositive or the cross product of the row and column
direction vectors is degenerate (zero); any matrix it does return has
bottom row `[0,0,0,1]` and a non-zero 3×3 determinant. -/
theorem orientation_failure_spec (rowv colv pos sz : V3) :
    (nifti_dicom2mat rowv colv pos sz = none ↔
      (sz.x ≤ 0 ∨ sz.y ≤ 0 ∨ sz.z ≤ 0 ∨ v3cross rowv colv = ⟨0, 0, 0⟩)) ∧
    (∀ M, nifti_dicom2mat rowv colv pos sz = some M →
      M.getD 3 [] = [0, 0, 0, 1] ∧ det3 M ≠ 0) := by
  constructor
  · unfold nifti_dicom2mat
    split_ifs with hsz hw
    · exact iff_of_true rfl (by tauto)
    · exact iff_of_true rfl (by tauto)
    · apply iff_of_false (by simp)
      push_neg at hsz
      obtain ⟨h1, h2, h3⟩ := hsz
      rintro (h | h | h | h)
      · exact absurd h (not_le.mpr h1)
      · exact absurd h (not_le.mpr h2)
      · exact absurd h (not_le.mpr h3)
      · exact hw h
  · intro M hM
    unfold nifti_dicom2mat at hM
    split_ifs at hM with hsz hw
    have hMeq : M =
          [[rowv.x * sz.x, colv.x * sz.y, (v3cross rowv colv).x * sz.z, pos.x],
            [rowv.y * sz.x, colv.y * sz.y, (v3cross rowv colv).y * sz.z, pos.y],
            [rowv.z * sz.x, colv.z * sz.y, (v3cross rowv colv).z * sz.z, pos.z],
            [0, 0, 0, 1]] := (Option.some.inj hM).symm
    subst hMeq
    push_neg at hsz
    obtain ⟨hx, hy, hz⟩ := hsz
    refine ⟨rfl, ?_⟩
    have hdet : det3
        [[rowv.x * sz.x, colv.x * sz.y, (v3cross rowv colv).x * sz.z, pos.x],
          [rowv.y * sz.x, colv.y * sz.y, (v3cross rowv colv).y * sz.z, pos.y],
          [rowv.z * sz.x, colv.z * sz.y, (v3cross rowv colv).z * sz.z, pos.z],
          [0, 0, 0, 1]] =
        sz.x * sz.y * sz.z *
          ((v3cross rowv colv).x * (v3cross rowv colv).x +
            (v3cross rowv colv).y * (v3cross rowv colv).y +
            (v3cross rowv colv).z * (v3cross rowv colv).z) := by
      simp [det3, mAt, v3cross]
      ring
    have hcomp : (v3cross rowv colv).x ≠ 0 ∨ (v3cross rowv colv).y ≠ 0 ∨
        (v3cross rowv colv).z ≠ 0 := by
      by_contra hall
      push_neg at hall
      exact hw (by
        have hveq : v3cross rowv colv = ⟨(v3cross rowv colv).x, (v3cross rowv colv).y,
            (v3cross rowv colv).z⟩ := rfl
        rw [hveq, hall.1, hall.2.1, hall.2.2])
    have hsum : 0 < (v3cross rowv colv).x * (v3cross rowv colv).x +
        (v3cross rowv colv).y * (v3cross rowv colv).y +
        (v3cross rowv colv).z * (v3cross rowv colv).z := by
      rcases hcomp with h | h | h
      · nlinarith [mul_self_pos.mpr h, mul_self_nonneg (v3cross rowv colv).y,
          mul_self_nonneg (v3cross rowv colv).z]
      · nlinarith [mul_self_pos.mpr h, mul_self_nonneg (v3cross rowv colv).x,
          mul_self_nonneg (v3cross rowv colv).z]
      · nlinarith [mul_self_pos.mpr h, mul_self_nonneg (v3cross rowv colv).x,
          mul_self_nonneg (v3cross rowv colv).y]
    rw [hdet]
    exact ne_of_gt (mul_pos (mul_pos (mul_pos hx hy) hz) hsum)

/-- Witness for C8 at concrete axis-aligned direction vectors. -/
theorem orientation_failure_spec_witness :
    nifti_dicom2mat ⟨1, 0, 0⟩ ⟨0, 1, 0⟩ ⟨5, 6, 7⟩ ⟨2, 3, 4⟩ =
      some [[2, 0, 0, 5], [0, 3, 0, 6], [0, 0, 4, 7], [0, 0, 0, 1]] ∧
    ([[2, 0, 0, 5], [0, 3, 0, 6], [0, 0, 4, 7], [(0 : ℚ), 0, 0, 1]].getD 3 [] = [0, 0, 0, 1] ∧
      det3 [[2, 0, 0, 5], [0, 3, 0, 6], [0, 0, 4, 7], [0, 0, 0, 1]] ≠ 0) := by
  have hmat : nifti_dicom2mat ⟨1, 0, 0⟩ ⟨0, 1, 0⟩ ⟨5, 6, 7⟩ ⟨2, 3, 4⟩ =
      some [[2, 0, 0, 5], [0, 3, 0, 6], [0, 0, 4, 7], [0, 0, 0, 1]] := by
    with_unfolding_all decide
  have h := (orientation_failure_spec ⟨1, 0, 0⟩ ⟨0, 1, 0⟩ ⟨5, 6, 7⟩ ⟨2, 3, 4⟩).2
    [[2, 0, 0, 5], [0, 3, 0, 6], [0, 0, 4, 7], [0, 0, 0, 1]] hmat
  exact ⟨hmat, h⟩

/-- C9: when the primary receive-coil tag has no items the extractor
falls back to the first item of the secondary tag, otherwise it uses the
primary tag's first item; in both cases the user field carries the
documentation string. -/
theorem coil_fallback_spec (img : DicomImg) (now : String) (m : HdrExt)
    (h : extractDicomMetadata img now = some m) :
    (img.csa.ReceivingCoil = [] →
      getUser m "ReceiveCoilName" =
        some (MetaVal.str (img.csa.ImaCoilString.headD ""), "Rx coil name.")) ∧
    (∀ v rest, img.csa.ReceivingCoil = v :: rest →
      getUser m "ReceiveCoilName" = some (MetaVal.str v, "Rx coil name.")) := by
  unfold extractDicomMetadata at h
  split at h
  · rename_i freq nuc coil seqn te fa tr hfreq hnuc hcoil hseq hte hfa htr
    cases h
    constructor
    · intro hempty
      have hc2 : img.csa.ImaCoilString.head? = some coil := by
        unfold coilName at hcoil
        rw [hempty] at hcoil
        exact hcoil
      cases hics : img.csa.ImaCoilString with
      | nil => rw [hics] at hc2; cases hc2
      | cons a t =>
        rw [hics] at hc2
        have : a = coil := Option.some.inj hc2
        subst this
        rw [getUser_buildMeta]
        rfl
    · intro v rest hcons
      have hcv : coil = v := by
        unfold coilName at hcoil
        rw [hcons] at hcoil
        exact (Option.some.inj hcoil).symm
      subst hcv
      exact getUser_buildMeta img now freq nuc coil seqn te fa tr
  · cases h

/-- Witness for C9 at the concrete file with an empty primary coil tag. -/
theorem coil_fallback_spec_witness :
    getUser ((extractDicomMetadata imgExCoil "t").getD default) "ReceiveCoilName" =
      some (MetaVal.str "CoilB", "Rx coil name.") := by
  have h := (coil_fallback_spec imgExCoil "t"
    ((extractDicomMetadata imgExCoil "t").getD default) (by with_unfolding_all decide)).1 rfl
  rw [h]
  decide

theorem combine_branch_spec (files : List (String × DicomImg)) (fo tag : Option String)
    (now : String) (results : List FileResult) (outs : List NIfTI_MRS) (names : List String)
    (hconv : mapMO (fun img => convert_file img now) (files.map Prod.snd) = some results)
    (hne : results ≠ [])
    (hcomb : combineTest (results.map fun r => r.data.shape)
      (results.map fun r => r.orient.Q44) (results.map fun r => r.dwell) = true)
    (hrun : multi_file_dicom files fo tag now = some (outs, names)) :
    outs.length = 1 ∧
    names = [mainName files fo] ∧
    results.length = files.length ∧
    (outs.getD 0 default).q44 = (results.headD default).orient.Q44 ∧
    (outs.getD 0 default).dwelltime = (results.headD default).dwell ∧
    (outs.getD 0 default).meta =
      combMeta tag (files.map Prod.fst) (results.headD default).meta ∧
    getStandard (outs.getD 0 default).meta "OriginalFile" =
      some (MetaVal.strList (files.map Prod.fst)) ∧
    (outs.getD 0 default).data.shape =
      (results.headD default).data.shape ++ [results.length] ∧
    (∀ n, n < results.length → ∀ idx,
      List.Forall₂ (· < ·) idx (results.headD default).data.shape →
      (outs.getD 0 default).data.entry (idx ++ [n]) =
        (results.getD n default).data.entry idx) := by
  cases results with
  | nil => exact absurd rfl hne
  | cons r0 rest =>
    have hall := multi_run files fo tag now r0 rest hconv
    rw [hall] at hrun
    have hpair : (outs, names) = emitResults files fo tag (r0 :: rest) r0 :=
      (Option.some.inj hrun).symm
    rw [emitResults_combine files fo tag (r0 :: rest) r0 hcomb] at hpair
    have ho : outs = [⟨stackLast ((r0 :: rest).map fun r => r.data), r0.orient.Q44, r0.dwell,
        combMeta tag (files.map Prod.fst) r0.meta⟩] := congrArg Prod.fst hpair
    have hnm : names = [mainName files fo] := congrArg Prod.snd hpair
    have hlen : (r0 :: rest).length = files.length := by
      have hml := mapMO_length _ _ _ hconv
      simpa using hml
    subst ho
    refine ⟨rfl, hnm, hlen, rfl, rfl, rfl, ?_, ?_, ?_⟩
    · exact getStandard_combMeta tag (files.map Prod.fst) r0.meta
    · show (stackLast ((r0 :: rest).map fun r => r.data)).shape =
        r0.data.shape ++ [(r0 :: rest).length]
      rw [stackLast_shape]
      simp
    · intro n hn idx hidx
      have hS : ∀ a ∈ (r0 :: rest).map (fun r => r.data), a.shape = r0.data.shape := by
        intro a ha
        obtain ⟨r, hr, rfl⟩ := List.mem_map.1 ha
        exact combine_shape_eq (r0 :: rest) hcomb r hr
      have hn' : n < ((r0 :: rest).map fun r => r.data).length := by simpa using hn
      have hent := stackLast_entry ((r0 :: rest).map fun r => r.data) r0.data.shape hS
        (by simp) n hn' idx hidx
      show (stackLast ((r0 :: rest).map fun r => r.data)).entry (idx ++ [n]) =
        ((r0 :: rest).getD n default).data.entry idx
      rw [hent, getD_map_lt (fun r => r.data) (r0 :: rest) n ⟨[], []⟩ default
        (by simpa using hn)]

/-- C2 (amended): when the combinability test holds, exactly one output is
emitted; its data is the per-file spectra stacked along a new trailing
axis of length N in input order; its orientation, dwell time and metadata
are the first file's, the metadata gaining the OriginalFile standard
field listing all N input paths in order; the output name is the override
when it is supplied and non-empty, else the first file's series
description (not the protocol name). -/
theorem combine_path_spec (files : List (String × DicomImg)) (fo tag : Option String)
    (now : String) (results : List FileResult) (outs : List NIfTI_MRS) (names : List String)
    (hconv : mapMO (fun img => convert_file img now) (files.map Prod.snd) = some results)
    (hne : results ≠ [])
    (hcomb : combineTest (results.map fun r => r.data.shape)
      (results.map fun r => r.orient.Q44) (results.map fun r => r.dwell) = true)
    (hrun : multi_file_dicom files fo tag now = some (outs, names)) :
    outs.length = 1 ∧
    names = [mainName files fo] ∧
    results.length = files.length ∧
    (outs.getD 0 default).q44 = (results.headD default).orient.Q44 ∧
    (outs.getD 0 default).dwelltime = (results.headD default).dwell ∧
    (outs.getD 0 default).meta =
      combMeta tag (files.map Prod.fst) (results.headD default).meta ∧
    getStandard (outs.getD 0 default).meta "OriginalFile" =
      some (MetaVal.strList (files.map Prod.fst)) ∧
    (outs.getD 0 default).data.shape =
      (results.headD default).data.shape ++ [results.length] ∧
    (∀ n, n < results.length → ∀ idx,
      List.Forall₂ (· < ·) idx (results.headD default).data.shape →
      (outs.getD 0 default).data.entry (idx ++ [n]) =
        (results.getD n default).data.entry idx) :=
  combine_branch_spec files fo tag now results outs names hconv hne hcomb hrun

/-- Witness for C2 on a combinable two-file batch. -/
theorem combine_path_spec_witness :
    ((multi_file_dicom [("a.dcm", imgEx), ("b.dcm", imgEx)] none none "t").getD default).2 =
      ["A"] ∧
    getStandard (((multi_file_dicom [("a.dcm", imgEx), ("b.dcm", imgEx)] none none
        "t").getD default).1.getD 0 default).meta "OriginalFile" =
      some (MetaVal.strList ["a.dcm", "b.dcm"]) := by
  have h := combine_path_spec [("a.dcm", imgEx), ("b.dcm", imgEx)] none none "t"
    ((mapMO (fun img => convert_file img "t")
      ([("a.dcm", imgEx), ("b.dcm", imgEx)].map Prod.snd)).getD [])
    ((multi_file_dicom [("a.dcm", imgEx), ("b.dcm", imgEx)] none none "t").getD default).1
    ((multi_file_dicom [("a.dcm", imgEx), ("b.dcm", imgEx)] none none "t").getD default).2
    (by with_unfolding_all decide) (by with_unfolding_all decide)
    (by with_unfolding_all decide) (by with_unfolding_all decide)
  exact ⟨h.2.1.trans (by decide), h.2.2.2.2.2.2.1.trans (by decide)⟩

/-- C2 counterexample: two batches that agree on every field except the
series description — in particular on all protocol names — receive
different default output names, so the default name is not derived from
the first file's protocol name: it is the series description. -/
theorem combine_name_counterexample :
    (multi_file_dicom [("a.dcm", imgEx)] none none "t").map Prod.snd = some ["A"] ∧
    (multi_file_dicom [("a.dcm", imgExSD2)] none none "t").map Prod.snd = some ["A2"] ∧
    imgEx.dcm.ProtocolName = imgExSD2.dcm.ProtocolName ∧
    imgEx.dcm.ProtocolName = "B" ∧
    ("A" : String) ≠ "A2" ∧ ("A" : String) ≠ "B" := by
  refine ⟨by with_unfolding_all decide, by with_unfolding_all decide, by decide, by decide,
    by decide, by decide⟩

theorem prod_default_pair : (default : FileResult × String) = (default, "") := rfl

/-- C3 counterexample: a non-combinable batch is named from the first
file's series description ("A"), not from its protocol name ("B"). -/
theorem separate_name_counterexample :
    (multi_file_dicom [("a.dcm", imgEx), ("b.dcm", imgExDwell)] none none "t").map Prod.snd =
      some ["A_000", "A_001"] ∧
    imgEx.dcm.ProtocolName = "B" ∧
    (["A_000", "A_001"] : List String) ≠ ["B_000", "B_001"] := by
  refine ⟨by with_unfolding_all decide, by decide, by decide⟩

/-- C3 (amended): when the combinability test fails, exactly N outputs are
emitted; the unit at index i carries file i's own spectrum, orientation,
dwell time and metadata, with a provenance field containing only that
file's path, and is named `{stem}_{i:03}` where the stem is the override
when supplied and non-empty, else the first file's series description
(not the protocol name). -/
theorem separate_path_spec (files : List (String × DicomImg)) (fo tag : Option String)
    (now : String) (results : List FileResult) (outs : List NIfTI_MRS) (names : List String)
    (hconv : mapMO (fun img => convert_file img now) (files.map Prod.snd) = some results)
    (hcomb : combineTest (results.map fun r => r.data.shape)
      (results.map fun r => r.orient.Q44) (results.map fun r => r.dwell) = false)
    (hrun : multi_file_dicom files fo tag now = some (outs, names)) :
    outs.length = files.length ∧
    names.length = files.length ∧
    ∀ i, i < files.length →
      convert_file (files.getD i default).2 now = some (results.getD i default) ∧
      outs.getD i default =
        ⟨(results.getD i default).data, (results.getD i default).orient.Q44,
          (results.getD i default).dwell,
          set_standard_def "OriginalFile"
            (MetaVal.strList [(files.getD i default).1]) (results.getD i default).meta⟩ ∧
      getStandard (outs.getD i default).meta "OriginalFile" =
        some (MetaVal.strList [(files.getD i default).1]) ∧
      names.getD i "" = mainName files fo ++ "_" ++ pad3 i := by
  cases results with
  | nil => exact absurd hcomb (by decide)
  | cons r0 rest =>
    have hall := multi_run files fo tag now r0 rest hconv
    rw [hall] at hrun
    have hpair : (outs, names) = emitResults files fo tag (r0 :: rest) r0 :=
      (Option.some.inj hrun).symm
    rw [emitResults_separate files fo tag (r0 :: rest) r0 hcomb] at hpair
    have ho : outs =
        (emitSeparate (mainName files fo) 0 ((r0 :: rest).zip (files.map Prod.fst))).1 :=
      congrArg Prod.fst hpair
    have hnm : names =
        (emitSeparate (mainName files fo) 0 ((r0 :: rest).zip (files.map Prod.fst))).2 :=
      congrArg Prod.snd hpair
    have hlen : (r0 :: rest).length = files.length := by
      simpa using mapMO_length _ _ _ hconv
    have hzl : ((r0 :: rest).zip (files.map Prod.fst)).length = files.length := by
      simp [List.length_zip, hlen]
    refine ⟨?_, ?_, ?_⟩
    · rw [ho, emitSeparate_fst_length, hzl]
    · rw [hnm, emitSeparate_snd_length, hzl]
    · intro i hi
      have hi' : i < (r0 :: rest).length := by rw [hlen]; exact hi
      have hizip : i < ((r0 :: rest).zip (files.map Prod.fst)).length := by
        rw [hzl]; exact hi
      have hmap : i < (files.map Prod.fst).length := by simpa using hi
      have hes := emitSeparate_getD (mainName files fo) 0 i _ hizip
      have hzip : ((r0 :: rest).zip (files.map Prod.fst)).getD i default =
          ((r0 :: rest).getD i default, (files.map Prod.fst).getD i "") := by
        rw [prod_default_pair]
        exact getD_zip_lt (r0 :: rest) (files.map Prod.fst) i default "" hi' hmap
      have hfst : (files.map Prod.fst).getD i "" = (files.getD i default).1 :=
        getD_map_lt Prod.fst files i "" default hi
      have hsnd : (files.map Prod.snd).getD i default = (files.getD i default).2 :=
        getD_map_lt Prod.snd files i default default hi
      refine ⟨?_, ?_, ?_, ?_⟩
      · have hmg := mapMO_getD _ _ _ hconv i (by simpa using hi)
        rw [hsnd] at hmg
        exact hmg
      · rw [ho, hes.1, hzip, hfst]
      · rw [ho, hes.1, hzip, hfst]
        exact getStandard_set_self _ _ _
      · rw [hnm, hes.2, Nat.zero_add]

/-- Witness for C3 on a two-file batch whose dwell times differ. -/
theorem separate_path_spec_witness :
    ((multi_file_dicom [("a.dcm", imgEx), ("b.dcm", imgExDwell)] none none
      "t").getD default).2.getD 0 "" = "A_000" ∧
    ((multi_file_dicom [("a.dcm", imgEx), ("b.dcm", imgExDwell)] none none
      "t").getD default).2.getD 1 "" = "A_001" ∧
    getStandard (((multi_file_dicom [("a.dcm", imgEx), ("b.dcm", imgExDwell)] none none
        "t").getD default).1.getD 1 default).meta "OriginalFile" =
      some (MetaVal.strList ["b.dcm"]) := by
  have h := separate_path_spec [("a.dcm", imgEx), ("b.dcm", imgExDwell)] none none "t"
    ((mapMO (fun img => convert_file img "t")
      ([("a.dcm", imgEx), ("b.dcm", imgExDwell)].map Prod.snd)).getD [])
    ((multi_file_dicom [("a.dcm", imgEx), ("b.dcm", imgExDwell)] none none "t").getD default).1
    ((multi_file_dicom [("a.dcm", imgEx), ("b.dcm", imgExDwell)] none none "t").getD default).2
    (by with_unfolding_all decide) (by with_unfolding_all decide) (by with_unfolding_all decide)
  exact ⟨(h.2.2 0 (by decide)).2.2.2.trans (by decide),
    (h.2.2 1 (by decide)).2.2.2.trans (by decide),
    (h.2.2 1 (by decide)).2.2.1.trans (by decide)⟩

/-- C10: a single-file batch always takes the combine path — the
combinability test is vacuously true — emitting exactly one output named
by the bare stem with no numeric suffix, whose provenance field is the
one-element list of that file's path and whose data gains one extra
trailing axis of length one relative to the per-file spectrum. -/
theorem single_file_combine_spec (p : String) (img : DicomImg) (fo tag : Option String)
    (now : String) (r : FileResult) (outs : List NIfTI_MRS) (names : List String)
    (hr : convert_file img now = some r)
    (hrun : multi_file_dicom [(p, img)] fo tag now = some (outs, names)) :
    outs.length = 1 ∧
    names = [mainName [(p, img)] fo] ∧
    getStandard (outs.getD 0 default).meta "OriginalFile" = some (MetaVal.strList [p]) ∧
    (outs.getD 0 default).data.shape = r.data.shape ++ [1] ∧
    (∀ idx, List.Forall₂ (· < ·) idx r.data.shape →
      (outs.getD 0 default).data.entry (idx ++ [0]) = r.data.entry idx) := by
  have hconv : mapMO (fun i => convert_file i now) ([(p, img)].map Prod.snd) = some [r] := by
    simp [mapMO, hr]
  have h := combine_branch_spec [(p, img)] fo tag now [r] outs names hconv (by simp) rfl hrun
  refine ⟨h.1, h.2.1, ?_, ?_, ?_⟩
  · exact h.2.2.2.2.2.2.1
  · exact h.2.2.2.2.2.2.2.1
  · intro idx hidx
    exact h.2.2.2.2.2.2.2.2 0 (by simp) idx hidx

/-- Witness for C10 on a concrete single-file batch. -/
theorem single_file_combine_spec_witness :
    ((multi_file_dicom [("f1.dcm", imgEx)] none none "t").getD default).2 = ["A"] ∧
    (((multi_file_dicom [("f1.dcm", imgEx)] none none "t").getD default).1.getD 0
      default).data.shape = [1, 1, 1, 2, 1] ∧
    getStandard ((((multi_file_dicom [("f1.dcm", imgEx)] none none "t").getD
      default).1.getD 0 default)).meta "OriginalFile" =
      some (MetaVal.strList ["f1.dcm"]) := by
  have h := single_file_combine_spec "f1.dcm" imgEx none none "t"
    ((convert_file imgEx "t").getD default)
    ((multi_file_dicom [("f1.dcm", imgEx)] none none "t").getD default).1
    ((multi_file_dicom [("f1.dcm", imgEx)] none none "t").getD default).2
    (by with_unfolding_all decide) (by with_unfolding_all decide)
  exact ⟨h.2.1.trans (by decide), h.2.2.2.1.trans (by with_unfolding_all decide),
    h.2.2.1⟩
